import Mathlib

/-!
Verification of the clipboard-history core of
OussamaTabDev/Clipboard-Manager-for-Linux-Mint.

The store state mirrors the fields of `ClipboardManager` in `mm.py`
(`max_size`, `auto_paste`, `clip_history`, `last_saved`).  The Python
`clip_history` is a `collections.deque` with `maxlen = max_size`; we embed
it as a `List String` together with explicit eviction-from-the-front
helpers reproducing the deque's maxlen behaviour.
-/

/-- State of `ClipboardManager` (mm.py, `__init__` lines 22-27): the bound
`max_size`, the `auto_paste` flag, the bounded history deque `clip_history`
(oldest first), and `last_saved`, the most recently observed clipboard
text. -/
structure ClipboardManager where
  max_size : Nat
  auto_paste : Bool
  clip_history : List String
  last_saved : String
deriving Repr, DecidableEq

/-- Appending to a Python `deque` with `maxlen = m`: the new element goes to
the back and, if the length would exceed `m`, elements are discarded from
the front. -/
def dequeAppend (m : Nat) (d : List String) (x : String) : List String :=
  let d2 := d ++ [x]
  d2.drop (d2.length - m)

/-- Constructing a Python `deque(iterable, maxlen = m)`: when the iterable is
longer than `m`, only the last `m` elements are retained. -/
def dequeMk (m : Nat) (l : List String) : List String :=
  l.drop (l.length - m)

/-- The freshly constructed manager (mm.py `__init__`): `max_size = 100`,
`auto_paste = True`, empty history, `last_saved = ""`. -/
def initStore : ClipboardManager :=
  { max_size := 100, auto_paste := true, clip_history := [], last_saved := "" }

/-- One iteration of the watcher loop body of `watch_clipboard` (mm.py
lines 107-117) applied to the polled clipboard value `current`: if
`current` is non-empty and differs from `last_saved`, then (a) when
`current` is not already in the history it is appended (the deque evicting
from the front when full) and (b) in either case `last_saved` is set to
`current`.  This is the `offer` operation of the spec's HistoryStore. -/
def offer (s : ClipboardManager) (current : String) : ClipboardManager :=
  if current = "" then s
  else if current = s.last_saved then s
  else if current ∈ s.clip_history then
    { s with last_saved := current }
  else
    { s with clip_history := dequeAppend s.max_size s.clip_history current,
             last_saved := current }

/-- A sequence of watcher iterations, each observing the next polled value. -/
def offers (s : ClipboardManager) (cs : List String) : ClipboardManager :=
  cs.foldl offer s

/-- Reading the history (`list(self.clip_history)`), oldest first. -/
def snapshot (s : ClipboardManager) : List String :=
  s.clip_history

/-- Python `deque.remove` / `list.remove` on the elements: delete the first
occurrence of `t`, leaving the list unchanged when `t` is absent. -/
def removeFirst : List String → String → List String
  | [], _ => []
  | y :: ys, t => if y = t then ys else y :: removeFirst ys t

/-- Modelled from the spec: `HistoryStore.remove(text)` — "removes the first
exact match of `text` if present; no-op (not an error) if absent".  In src
the only removal site is the Delete-key handler (mm.py `show_ui` `on_key`
lines 370-377), which calls `self.clip_history.remove(text_to_remove)` on a
text known to be present; the present case below follows that call's
first-match `deque.remove` semantics, and the absent case (return the state
unchanged with `false`) follows the spec's words. -/
def removeStore (s : ClipboardManager) (t : String) : ClipboardManager × Bool :=
  if t ∈ s.clip_history then
    ({ s with clip_history := removeFirst s.clip_history t }, true)
  else (s, false)

/-- Clearing the history (`clip_history.clear()` in tk_main.py `clear_all`
and mmnn.py `clear_history`). -/
def clearStore (s : ClipboardManager) : ClipboardManager :=
  { s with clip_history := [] }

/-- `set_max_size` (main.py lines 50-57): raise `ValueError` when
`new_size <= 0` (before any mutation, so the state is untouched), otherwise
set `max_size` and rebuild the deque with the new maxlen, keeping the most
recent items.  The returned `Option String` is the raised error message. -/
def set_max_size (s : ClipboardManager) (new_size : Int) :
    ClipboardManager × Option String :=
  if new_size ≤ 0 then (s, some "Max size must be > 0")
  else ({ s with max_size := new_size.toNat,
                 clip_history := dequeMk new_size.toNat s.clip_history }, none)

/-- The persisted JSON object written by `save_config` (mm.py lines 89-99):
fields `max_size`, `auto_paste` and `history` (oldest to newest). -/
structure StoredState where
  max_size : Nat
  auto_paste : Bool
  history : List String
deriving Repr, DecidableEq

/-- `save_config` (mm.py lines 89-99): serialize the current state. -/
def save_config (s : ClipboardManager) : StoredState :=
  { max_size := s.max_size, auto_paste := s.auto_paste,
    history := s.clip_history }

/-- `load_config` (mm.py lines 78-87): hydrate the manager from a persisted
file — set `max_size` and `auto_paste` from the file and rebuild
`clip_history` as `deque(history, maxlen = max_size)`. -/
def load_config (s : ClipboardManager) (c : StoredState) : ClipboardManager :=
  { s with max_size := c.max_size, auto_paste := c.auto_paste,
           clip_history := dequeMk c.max_size c.history }

/-- The reachable states of the store: the fresh manager, closed under the
watcher iteration, removal, clearing, resizing, and hydrating a fresh
manager from a file persisted by `save_config`. -/
inductive Reachable : ClipboardManager → Prop
  | init : Reachable initStore
  | stepOffer {s : ClipboardManager} (c : String) :
      Reachable s → Reachable (offer s c)
  | stepRemove {s : ClipboardManager} (t : String) :
      Reachable s → Reachable (removeStore s t).1
  | stepClear {s : ClipboardManager} :
      Reachable s → Reachable (clearStore s)
  | stepResize {s : ClipboardManager} (n : Int) :
      Reachable s → Reachable (set_max_size s n).1
  | stepHydrate {s : ClipboardManager} :
      Reachable s → Reachable (load_config initStore (save_config s))

/-- The store invariant: the history has no duplicates, contains no empty
string, and never exceeds the capacity. -/
def StoreInv (s : ClipboardManager) : Prop :=
  s.clip_history.Nodup ∧ (∀ x ∈ s.clip_history, x ≠ "") ∧
    s.clip_history.length ≤ s.max_size

/-! Helper lemmas about the deque operations. -/

lemma dequeAppend_length_le {m : Nat} (d : List String) (x : String)
    (h : d.length ≤ m) : (dequeAppend m d x).length ≤ m := by
  simp only [dequeAppend, List.length_drop, List.length_append,
    List.length_singleton]
  omega

lemma dequeAppend_sub (m : Nat) (d : List String) (x : String) :
    (dequeAppend m d x).Sublist (d ++ [x]) := by
  simpa [dequeAppend] using List.drop_sublist _ _

lemma dequeAppend_nodup {m : Nat} {d : List String} {x : String}
    (hd : d.Nodup) (hx : x ∉ d) : (dequeAppend m d x).Nodup := by
  refine (dequeAppend_sub m d x).nodup ?_
  simp [List.nodup_append, hd, hx]

lemma dequeMk_sub (m : Nat) (l : List String) :
    (dequeMk m l).Sublist l := by
  simpa [dequeMk] using List.drop_sublist _ _

lemma dequeMk_length_le (m : Nat) (l : List String) :
    (dequeMk m l).length ≤ m := by
  simp only [dequeMk, List.length_drop]
  omega

lemma dequeMk_eq_self {m : Nat} {l : List String} (h : l.length ≤ m) :
    dequeMk m l = l := by
  simp [dequeMk, Nat.sub_eq_zero_of_le h]

/-! Invariant preservation for every operation, and the invariant on all
reachable states. -/

lemma storeInv_init : StoreInv initStore := by
  constructor <;> simp [initStore]

lemma offer_max_size (s : ClipboardManager) (c : String) :
    (offer s c).max_size = s.max_size := by
  unfold offer
  split_ifs <;> rfl

lemma offer_length_le {s : ClipboardManager} (c : String)
    (h : s.clip_history.length ≤ s.max_size) :
    (offer s c).clip_history.length ≤ s.max_size := by
  unfold offer
  split_ifs <;> first
    | exact h
    | exact dequeAppend_length_le s.clip_history c h

lemma storeInv_offer {s : ClipboardManager} (c : String)
    (h : StoreInv s) : StoreInv (offer s c) := by
  obtain ⟨hnd, hne, hlen⟩ := h
  unfold offer
  split_ifs with h1 h2 h3
  · exact ⟨hnd, hne, hlen⟩
  · exact ⟨hnd, hne, hlen⟩
  · exact ⟨hnd, hne, hlen⟩
  · refine ⟨dequeAppend_nodup hnd h3, ?_, dequeAppend_length_le _ c hlen⟩
    intro x hx
    have hx2 : x ∈ s.clip_history ++ [c] :=
      (dequeAppend_sub _ _ _).subset hx
    rcases List.mem_append.1 hx2 with hx3 | hx3
    · exact hne x hx3
    · simp only [List.mem_singleton] at hx3
      exact hx3 ▸ h1

lemma removeFirst_sub (l : List String) (t : String) :
    (removeFirst l t).Sublist l := by
  induction l with
  | nil => simp [removeFirst]
  | cons y ys ih =>
    unfold removeFirst
    split_ifs
    · exact List.sublist_cons_self y ys
    · exact ih.cons₂ y

lemma storeInv_remove {s : ClipboardManager} (t : String)
    (h : StoreInv s) : StoreInv (removeStore s t).1 := by
  obtain ⟨hnd, hne, hlen⟩ := h
  unfold removeStore
  split_ifs
  · refine ⟨(removeFirst_sub _ _).nodup hnd, ?_, ?_⟩
    · exact fun x hx => hne x ((removeFirst_sub _ _).subset hx)
    · exact le_trans (removeFirst_sub _ _).length_le hlen
  · exact ⟨hnd, hne, hlen⟩

lemma storeInv_clear (s : ClipboardManager) : StoreInv (clearStore s) := by
  constructor <;> simp [clearStore]

lemma storeInv_resize {s : ClipboardManager} (n : Int)
    (h : StoreInv s) : StoreInv (set_max_size s n).1 := by
  obtain ⟨hnd, hne, hlen⟩ := h
  unfold set_max_size
  split_ifs
  · exact ⟨hnd, hne, hlen⟩
  · exact ⟨(dequeMk_sub _ _).nodup hnd,
      fun x hx => hne x ((dequeMk_sub _ _).subset hx),
      dequeMk_length_le _ _⟩

lemma storeInv_hydrate {s : ClipboardManager} (s2 : ClipboardManager)
    (h : StoreInv s) : StoreInv (load_config s2 (save_config s)) := by
  obtain ⟨hnd, hne, hlen⟩ := h
  unfold load_config save_config
  exact ⟨(dequeMk_sub _ _).nodup hnd,
    fun x hx => hne x ((dequeMk_sub _ _).subset hx),
    dequeMk_length_le _ _⟩

/-- Every reachable state satisfies the store invariant: no duplicates, no
empty strings, length bounded by the capacity. -/
lemma reachable_inv {s : ClipboardManager} (h : Reachable s) : StoreInv s := by
  induction h with
  | init => exact storeInv_init
  | stepOffer c _ ih => exact storeInv_offer c ih
  | stepRemove t _ ih => exact storeInv_remove t ih
  | stepClear _ ih => exact storeInv_clear _
  | stepResize n _ ih => exact storeInv_resize n ih
  | stepHydrate _ ih => exact storeInv_hydrate _ ih

lemma offers_cons (s : ClipboardManager) (c : String) (cs : List String) :
    offers s (c :: cs) = offers (offer s c) cs := rfl

/-- C1: Capacity invariant — from any state with `len(items) <= capacity`,
after every sequence of `offer` calls the length of `snapshot()` never
exceeds the capacity (the deque's maxlen), which `offer` never changes. -/
theorem capacity_invariant (s : ClipboardManager) (cs : List String)
    (h : s.clip_history.length ≤ s.max_size) :
    (snapshot (offers s cs)).length ≤ s.max_size := by
  induction cs generalizing s with
  | nil => exact h
  | cons c cs ih =>
    rw [offers_cons]
    have h2 := ih (offer s c)
      (by rw [offer_max_size]; exact offer_length_le c h)
    rwa [offer_max_size] at h2

/-- Witness for C1 at a concrete state and offer sequence. -/
theorem capacity_invariant_witness :
    initStore.clip_history.length ≤ initStore.max_size ∧
      (snapshot (offers initStore ["a", "b", "c"])).length ≤
        initStore.max_size :=
  ⟨by decide, capacity_invariant initStore ["a", "b", "c"] (by decide)⟩

/-- C2: Uniqueness invariant — in every reachable state (including states
hydrated from a persisted file by `load_config`), `snapshot()` contains no
two equal strings. -/
theorem uniqueness_invariant (s : ClipboardManager) (h : Reachable s) :
    (snapshot s).Nodup :=
  (reachable_inv h).1

/-- Witness for C2 at a reachable state obtained by hydrating the store
persisted after two offers. -/
theorem uniqueness_invariant_witness :
    (snapshot (load_config initStore
      (save_config (offer (offer initStore "a") "b")))).Nodup :=
  uniqueness_invariant _
    (Reachable.stepHydrate (Reachable.stepOffer "b"
      (Reachable.stepOffer "a" Reachable.init)))

/-- C3: End-to-end offer semantics — from the empty store with capacity 3,
offering "a", "b", "a", "c", "d" leaves the history equal to
["b", "c", "d"]: the duplicate "a" inserts nothing and "d" evicts the
oldest entry "a" from the front. -/
theorem end_to_end_offers :
    snapshot (offers
      { max_size := 3, auto_paste := true, clip_history := [],
        last_saved := "" }
      ["a", "b", "a", "c", "d"]) = ["b", "c", "d"] := by decide

/-- C4: Dedup without reorder — in any reachable state whose history is
`[A, B]` with `A` distinct from `B`, `offer(A)` leaves the history exactly
`[A, B]` (no duplicate, no move to the most-recent position) while
`last_saved` ends up equal to `A`. -/
theorem dedup_no_reorder (s : ClipboardManager) (A B : String)
    (hr : Reachable s) (hh : s.clip_history = [A, B]) (_hAB : A ≠ B) :
    snapshot (offer s A) = [A, B] ∧ (offer s A).last_saved = A := by
  have hA : A ≠ "" := (reachable_inv hr).2.1 A (by simp [hh])
  have hmem : A ∈ s.clip_history := by simp [hh]
  unfold offer snapshot
  split_ifs with h1 h2
  · exact absurd h1 hA
  · exact ⟨hh, h2.symm⟩
  · exact ⟨hh, rfl⟩

/-- Witness for C4: the reachable state with history ["a", "b"]. -/
theorem dedup_no_reorder_witness :
    snapshot (offer (offer (offer initStore "a") "b") "a") = ["a", "b"] ∧
      (offer (offer (offer initStore "a") "b") "a").last_saved = "a" :=
  dedup_no_reorder _ "a" "b"
    (Reachable.stepOffer "b" (Reachable.stepOffer "a" Reachable.init))
    (by decide) (by decide)

/-- C5: Resize rejects non-positive capacity atomically — for every state
and every `new_size <= 0`, `set_max_size` raises (here: returns the
`ValueError` message) and the state afterwards equals the state before. -/
theorem resize_rejects_nonpositive (s : ClipboardManager) (n : Int)
    (hn : n ≤ 0) :
    set_max_size s n = (s, some "Max size must be > 0") := by
  unfold set_max_size
  simp [hn]

/-- Witness for C5 at `new_size = 0` and `new_size = -1`. -/
theorem resize_rejects_nonpositive_witness :
    set_max_size initStore 0 = (initStore, some "Max size must be > 0") ∧
      set_max_size initStore (-1) =
        (initStore, some "Max size must be > 0") :=
  ⟨resize_rejects_nonpositive initStore 0 (by decide),
   resize_rejects_nonpositive initStore (-1) (by decide)⟩

lemma removeFirst_cons (y : String) (ys : List String) (t : String) :
    removeFirst (y :: ys) t = if y = t then ys else y :: removeFirst ys t :=
  rfl

lemma removeFirst_append {pre : List String} (t : String)
    (post : List String) (hpre : t ∉ pre) :
    removeFirst (pre ++ t :: post) t = pre ++ post := by
  induction pre with
  | nil => simp [removeFirst]
  | cons y ys ih =>
    have hy : y ≠ t := by
      intro h
      exact hpre (h ▸ List.mem_cons_self y ys)
    rw [List.cons_append, removeFirst_cons, if_neg hy,
      ih (fun h => hpre (List.mem_cons_of_mem y h)), List.cons_append]

/-- C6: Remove is a no-op on absence — when `text` is absent the state is
returned unchanged with `false` (no error), and when the history splits as
`pre ++ text :: post` with `text` not in `pre` (so `text :: post` starts at
the first exact match), exactly that first match is removed. -/
theorem remove_semantics (s : ClipboardManager) (t : String) :
    (t ∉ s.clip_history → removeStore s t = (s, false)) ∧
      (∀ pre post, s.clip_history = pre ++ t :: post → t ∉ pre →
        (removeStore s t).1.clip_history = pre ++ post ∧
          (removeStore s t).2 = true) := by
  constructor
  · intro habs
    unfold removeStore
    rw [if_neg habs]
  · intro pre post hsplit hpre
    have hmem : t ∈ s.clip_history := by
      rw [hsplit]
      exact List.mem_append.2 (Or.inr (List.mem_cons_self t post))
    unfold removeStore
    rw [if_pos hmem]
    exact ⟨by rw [hsplit, removeFirst_append t post hpre], rfl⟩

/-- Witness for C6: remove "Z" on history ["a", "b"] is a no-op returning
false, and remove "a" deletes exactly the first match. -/
theorem remove_semantics_witness :
    removeStore ⟨2, true, ["a", "b"], "b"⟩ "Z" =
        (⟨2, true, ["a", "b"], "b"⟩, false) ∧
      (removeStore ⟨2, true, ["a", "b"], "b"⟩ "a").1.clip_history = ["b"] ∧
      (removeStore ⟨2, true, ["a", "b"], "b"⟩ "a").2 = true :=
  ⟨(remove_semantics ⟨2, true, ["a", "b"], "b"⟩ "Z").1 (by decide),
   (remove_semantics ⟨2, true, ["a", "b"], "b"⟩ "a").2 [] ["b"]
     rfl (by decide)⟩

/-- C7: Empty strings are never stored — in every reachable state,
`offer("")` returns the state unchanged (so neither the history nor its
length changes), and the history never contains the empty string,
including states hydrated from the persisted file. -/
theorem empty_never_stored (s : ClipboardManager) (h : Reachable s) :
    offer s "" = s ∧ ∀ x ∈ snapshot s, x ≠ "" :=
  ⟨by unfold offer; simp, (reachable_inv h).2.1⟩

/-- Witness for C7 at a reachable state hydrated from a saved file. -/
theorem empty_never_stored_witness :
    offer (load_config initStore (save_config (offer initStore "a"))) "" =
        load_config initStore (save_config (offer initStore "a")) ∧
      ∀ x ∈ snapshot (load_config initStore
        (save_config (offer initStore "a"))), x ≠ "" :=
  empty_never_stored _
    (Reachable.stepHydrate (Reachable.stepOffer "a" Reachable.init))

/-- C8: Resize shrink retains the newest entries — for any state whose
history splits as `old ++ kept` with `kept` of length `new_size > 0`,
`set_max_size` keeps exactly the `new_size` most recently added items in
order, discards the oldest from the front, and sets the capacity. -/
theorem resize_shrink_keeps_newest (s : ClipboardManager) (n : Int)
    (old kept : List String) (hn : 0 < n)
    (hsplit : s.clip_history = old ++ kept) (hlen : kept.length = n.toNat) :
    (set_max_size s n).1.clip_history = kept ∧
      (set_max_size s n).1.max_size = n.toNat := by
  unfold set_max_size
  rw [if_neg (not_le.2 hn)]
  refine ⟨?_, rfl⟩
  show dequeMk n.toNat s.clip_history = kept
  rw [hsplit]
  unfold dequeMk
  rw [List.length_append, hlen, Nat.add_sub_cancel, List.drop_left]

/-- Witness for C8: history ["a", "b", "c", "d"] resized to 2 keeps
["c", "d"]. -/
theorem resize_shrink_keeps_newest_witness :
    (set_max_size ⟨10, true, ["a", "b", "c", "d"], ""⟩ 2).1.clip_history =
        ["c", "d"] ∧
      (set_max_size ⟨10, true, ["a", "b", "c", "d"], ""⟩ 2).1.max_size =
        (2 : Int).toNat :=
  resize_shrink_keeps_newest ⟨10, true, ["a", "b", "c", "d"], ""⟩ 2
    ["a", "b"] ["c", "d"] (by decide) rfl (by decide)

/-- C9: Persistence round-trip — for every state with
`len(items) <= capacity`, hydrating any store from the file written by
`save_config` reproduces the same `(capacity, items)` pair. -/
theorem save_load_round_trip (s s2 : ClipboardManager)
    (h : s.clip_history.length ≤ s.max_size) :
    (load_config s2 (save_config s)).max_size = s.max_size ∧
      (load_config s2 (save_config s)).clip_history = s.clip_history := by
  unfold load_config save_config
  exact ⟨rfl, dequeMk_eq_self h⟩

/-- Witness for C9 at a concrete state. -/
theorem save_load_round_trip_witness :
    (load_config initStore
        (save_config ⟨3, false, ["a", "b"], "b"⟩)).max_size = 3 ∧
      (load_config initStore
        (save_config ⟨3, false, ["a", "b"], "b"⟩)).clip_history =
          ["a", "b"] :=
  save_load_round_trip ⟨3, false, ["a", "b"], "b"⟩ initStore (by decide)

lemma not_mem_removeFirst {l : List String} (x : String) (h : l.Nodup) :
    x ∉ removeFirst l x := by
  induction l with
  | nil => simp [removeFirst]
  | cons y ys ih =>
    unfold removeFirst
    split_ifs with hy
    · intro hx
      exact (List.nodup_cons.1 h).1 (hy ▸ hx)
    · intro hx
      rcases List.mem_cons.1 hx with hx2 | hx2
      · exact hy hx2.symm
      · exact ih (List.nodup_cons.1 h).2 hx2

lemma removeStore_last_saved (s : ClipboardManager) (t : String) :
    (removeStore s t).1.last_saved = s.last_saved := by
  unfold removeStore
  split_ifs <;> rfl

lemma offer_of_eq_last_saved {s : ClipboardManager} {c : String}
    (h : c = s.last_saved) : offer s c = s := by
  unfold offer
  split_ifs <;> rfl

lemma offers_of_all_eq_last_saved {s : ClipboardManager} {x : String}
    (cs : List String) (hls : s.last_saved = x) (hcs : ∀ c ∈ cs, c = x) :
    offers s cs = s := by
  induction cs with
  | nil => rfl
  | cons c cs ih =>
    rw [offers_cons,
      offer_of_eq_last_saved ((hcs c (List.mem_cons_self c cs)).trans
        hls.symm)]
    exact ih fun c2 hc2 => hcs c2 (List.mem_cons_of_mem c hc2)

/-- C10: A removed item never reappears while the clipboard is unchanged —
`removeStore` leaves `last_saved` untouched, and after `remove(x)` in a
reachable state where `last_saved = x`, any sequence of watcher polls that
all read `x` never re-inserts `x` into the history, because each poll
compares against `last_saved` before ever inserting. -/
theorem removed_item_stays_out (s : ClipboardManager) (x : String)
    (cs : List String) (hr : Reachable s) (hls : s.last_saved = x)
    (hcs : ∀ c ∈ cs, c = x) :
    (removeStore s x).1.last_saved = s.last_saved ∧
      x ∉ snapshot (offers (removeStore s x).1 cs) := by
  refine ⟨removeStore_last_saved s x, ?_⟩
  have hls2 : (removeStore s x).1.last_saved = x :=
    (removeStore_last_saved s x).trans hls
  rw [offers_of_all_eq_last_saved cs hls2 hcs]
  show x ∉ (removeStore s x).1.clip_history
  unfold removeStore
  split_ifs with hmem
  · exact not_mem_removeFirst x (reachable_inv hr).1
  · exact hmem

/-- Witness for C10: remove "a" from the reachable state holding ["a"],
then two polls both reading "a" leave the history without "a". -/
theorem removed_item_stays_out_witness :
    (removeStore (offer initStore "a") "a").1.last_saved =
        (offer initStore "a").last_saved ∧
      "a" ∉ snapshot (offers (removeStore (offer initStore "a") "a").1
        ["a", "a"]) :=
  removed_item_stays_out (offer initStore "a") "a" ["a", "a"]
    (Reachable.stepOffer "a" Reachable.init) (by decide) (by decide)
